import Mathlib

/-!
The step sequencer of `sim/src/mockup_sim.cpp`.

A shallow embedding of `class Simulator` and of its private state
`Simulator::SimulatorImpl`, followed by the properties of its step counter.

* The two `int` fields are integers. The one arithmetic operation of the file,
  `pimpl->nextStep++`, is the increment of a 32-bit `int`: the mathematical
  successor reduced to the two's complement range by `wrapInt32`, so that
  2147483647 is followed by -2147483648. `runCalls_bounds` shows that the
  counter of an object never leaves `[-1, 5]`, where the reduction changes
  nothing (`wrapInt32_succ_of_bounds`).
* A member function is a function from the object's state to an `Outcome`:
  what the call returned or threw, the state it left, and what it wrote to
  `cout`.
* `OptionsPtr` stands for a valid (non-null) `OptionsPtr`; the stream operator
  of the options it points to is declared in `mgr/src/programoptions.h` and
  enters as the parameter `render`.
-/

set_option linter.dupNamespace false

namespace Simulator

/-- The `int` that holds the mathematical value `x`: `x` reduced modulo `2^32`
into `[-2^31, 2^31)`. -/
def wrapInt32 (x : Int) : Int :=
  (x + 2147483648) % 4294967296 - 2147483648

/-- The private state `struct Simulator::SimulatorImpl`. -/
structure SimulatorImpl (OptionsPtr : Type) where
  options : OptionsPtr
  nextStep : Int
  finalStep : Int
  deriving DecidableEq

/-- What a call of a member function leaves behind: `result` is the value
returned, or the `what()` of the `runtime_error` thrown; `pimpl` is the state
of the object when the call is over; `cout` is the text written to standard
output. -/
structure Outcome (OptionsPtr : Type) (R : Type) where
  result : Except String R
  pimpl : SimulatorImpl OptionsPtr
  cout : String

/-- The constructor `SimulatorImpl::SimulatorImpl(const OptionsPtr &)`. -/
def SimulatorImpl.SimulatorImpl {OptionsPtr : Type} (options : OptionsPtr) :
    SimulatorImpl OptionsPtr :=
  { options := options, nextStep := -1, finalStep := -1 }

/-- The constructor `Simulator::Simulator(const OptionsPtr &)`: the object is
its freshly allocated `pimpl`. -/
def Simulator {OptionsPtr : Type} (options : OptionsPtr) : SimulatorImpl OptionsPtr :=
  SimulatorImpl.SimulatorImpl options

/-- The member function `void Simulator::init()`. -/
def init {OptionsPtr : Type} (s : SimulatorImpl OptionsPtr) : Outcome OptionsPtr Unit :=
  let s1 := { s with nextStep := 0 }
  let s2 := { s1 with finalStep := 4 }
  { result := .ok (), pimpl := s2, cout := "" }

/-- The member function `int Simulator::nextStep() const`. -/
def nextStep {OptionsPtr : Type} (s : SimulatorImpl OptionsPtr) : Outcome OptionsPtr Int :=
  { result := .ok s.nextStep, pimpl := s, cout := "" }

/-- The member function `int Simulator::finalStep() const`. -/
def finalStep {OptionsPtr : Type} (s : SimulatorImpl OptionsPtr) : Outcome OptionsPtr Int :=
  { result := .ok s.finalStep, pimpl := s, cout := "" }

/-- The text of
`boost::format("error: next_step_ (%1%) > final_step_ (%2%)") % nextStep % finalStep`:
both integers in decimal. -/
def errorMessage (nextStep finalStep : Int) : String :=
  "error: next_step_ (" ++ toString nextStep ++ ") > final_step_ (" ++ toString finalStep ++ ")"

/-- The member function `void Simulator::execNextStep()`: the bound check throws
before anything is written; otherwise the `int` counter is incremented. -/
def execNextStep {OptionsPtr : Type} (s : SimulatorImpl OptionsPtr) : Outcome OptionsPtr Unit :=
  if s.nextStep > s.finalStep then
    { result := .error (errorMessage s.nextStep s.finalStep), pimpl := s, cout := "" }
  else
    { result := .ok (), pimpl := { s with nextStep := wrapInt32 (s.nextStep + 1) }, cout := "" }

/-- The member function `void Simulator::printStatus() const`; `render` is the
stream operator of the options. -/
def printStatus {OptionsPtr : Type} (render : OptionsPtr → String)
    (s : SimulatorImpl OptionsPtr) : Outcome OptionsPtr Unit :=
  { result := .ok (),
    pimpl := s,
    cout := "Simulator::printStatus(); options: " ++ render s.options ++ "\n" }

/-- The state after `k` consecutive calls of `execNextStep`, the caller
catching whatever a call throws. -/
def execNextSteps {OptionsPtr : Type} : Nat → SimulatorImpl OptionsPtr → SimulatorImpl OptionsPtr
  | 0, s => s
  | k + 1, s => execNextSteps k (execNextStep s).pimpl

/-- The public member functions of `Simulator`. -/
inductive Method where
  | init
  | nextStep
  | finalStep
  | execNextStep
  | printStatus
  deriving DecidableEq

/-- The state of the object after a call of the member function `m`. -/
def Method.call {OptionsPtr : Type} (render : OptionsPtr → String) :
    Method → SimulatorImpl OptionsPtr → SimulatorImpl OptionsPtr
  | .init, s => (Simulator.init s).pimpl
  | .nextStep, s => (Simulator.nextStep s).pimpl
  | .finalStep, s => (Simulator.finalStep s).pimpl
  | .execNextStep, s => (Simulator.execNextStep s).pimpl
  | .printStatus, s => (Simulator.printStatus render s).pimpl

/-- The state of the object after the calls of `ms`, in order, the caller
catching whatever a call throws. -/
def runCalls {OptionsPtr : Type} (render : OptionsPtr → String) :
    List Method → SimulatorImpl OptionsPtr → SimulatorImpl OptionsPtr
  | [], s => s
  | m :: ms, s => runCalls render ms (m.call render s)

/-- The states an object passes through: fresh, advanced once without `init`,
or initialized with the counter in `[0, 5]`. -/
def Bounds {OptionsPtr : Type} (s : SimulatorImpl OptionsPtr) : Prop :=
  (s.nextStep = -1 ∧ s.finalStep = -1) ∨ (s.nextStep = 0 ∧ s.finalStep = -1) ∨
    (s.finalStep = 4 ∧ 0 ≤ s.nextStep ∧ s.nextStep ≤ 5)

instance {OptionsPtr : Type} (s : SimulatorImpl OptionsPtr) : Decidable (Bounds s) := by
  unfold Bounds
  infer_instance

/-! ## Lemmas shared by the properties below -/

/-- On the `int` range, reducing to 32 bits changes nothing. -/
theorem wrapInt32_of_mem_range (x : Int) (hlo : -2147483648 ≤ x) (hhi : x < 2147483648) :
    wrapInt32 x = x := by
  unfold wrapInt32
  omega

/-- Within `Bounds` the 32-bit increment of the counter is the mathematical one. -/
theorem wrapInt32_succ_of_bounds {OptionsPtr : Type} (s : SimulatorImpl OptionsPtr)
    (h : Bounds s) : wrapInt32 (s.nextStep + 1) = s.nextStep + 1 := by
  unfold Bounds at h
  exact wrapInt32_of_mem_range _ (by omega) (by omega)

/-- The `int` after `x` is never `x`. -/
theorem wrapInt32_succ_ne (x : Int) : wrapInt32 (x + 1) ≠ x := by
  unfold wrapInt32
  omega

/-- A call that does not throw leaves the counter incremented as an `int` and
the rest of the state alone. -/
theorem execNextStep_of_le {OptionsPtr : Type} (s : SimulatorImpl OptionsPtr)
    (h : s.nextStep ≤ s.finalStep) :
    execNextStep s
      = { result := .ok (), pimpl := { s with nextStep := wrapInt32 (s.nextStep + 1) },
          cout := "" } := by
  unfold execNextStep
  rw [if_neg (not_lt.mpr h)]

/-- A call that does not throw, made with an `int` counter below the largest
`int`, leaves the counter 1 greater and the rest of the state alone. -/
theorem execNextStep_of_le_of_range {OptionsPtr : Type} (s : SimulatorImpl OptionsPtr)
    (h : s.nextStep ≤ s.finalStep) (hlo : -2147483648 ≤ s.nextStep)
    (hhi : s.nextStep < 2147483647) :
    execNextStep s
      = { result := .ok (), pimpl := { s with nextStep := s.nextStep + 1 }, cout := "" } := by
  rw [execNextStep_of_le s h, wrapInt32_of_mem_range _ (by omega) (by omega)]

/-- A call past the bound throws and leaves the state alone. -/
theorem execNextStep_of_lt {OptionsPtr : Type} (s : SimulatorImpl OptionsPtr)
    (h : s.finalStep < s.nextStep) :
    execNextStep s
      = { result := .error (errorMessage s.nextStep s.finalStep), pimpl := s, cout := "" } := by
  unfold execNextStep
  rw [if_pos h]

/-- Past the bound, any number of calls leaves the state where it was. -/
theorem execNextSteps_of_lt {OptionsPtr : Type} (s : SimulatorImpl OptionsPtr)
    (h : s.finalStep < s.nextStep) (k : Nat) : execNextSteps k s = s := by
  induction k with
  | zero => rfl
  | succ k ih => rw [execNextSteps, execNextStep_of_lt s h]; exact ih

/-- While the bound allows it, and with `int` fields whose bound is below the
largest `int`, `k` calls add `k` to the counter. -/
theorem execNextSteps_of_le {OptionsPtr : Type} (k : Nat) (s : SimulatorImpl OptionsPtr)
    (h : s.nextStep + k ≤ s.finalStep + 1) (hlo : -2147483648 ≤ s.nextStep)
    (hhi : s.finalStep < 2147483647) :
    execNextSteps k s = { s with nextStep := s.nextStep + k } := by
  induction k generalizing s with
  | zero => simp [execNextSteps]
  | succ k ih =>
    have hle : s.nextStep ≤ s.finalStep := by push_cast at h; omega
    rw [execNextSteps, execNextStep_of_le_of_range s hle hlo (by omega)]
    rw [ih]
    · simp only [Nat.cast_add, Nat.cast_one]
      congr 1
      omega
    · push_cast at h
      simp only
      omega
    · simp only
      omega
    · exact hhi

/-- After `init` the counter is above the smallest `int`. -/
theorem init_nextStep_lo {OptionsPtr : Type} (s : SimulatorImpl OptionsPtr) :
    -2147483648 ≤ (init s).pimpl.nextStep := by
  show (-2147483648 : Int) ≤ 0
  decide

/-- After `init` the bound is below the largest `int`. -/
theorem init_finalStep_hi {OptionsPtr : Type} (s : SimulatorImpl OptionsPtr) :
    (init s).pimpl.finalStep < 2147483647 := by
  show (4 : Int) < 2147483647
  decide

/-- Every member function keeps `Bounds`. -/
theorem call_bounds {OptionsPtr : Type} (render : OptionsPtr → String) (m : Method)
    (s : SimulatorImpl OptionsPtr) (h : Bounds s) : Bounds (m.call render s) := by
  cases m with
  | init => right; right; simp [Method.call, init]
  | nextStep => exact h
  | finalStep => exact h
  | printStatus => exact h
  | execNextStep =>
    unfold Bounds at h ⊢
    simp only [Method.call]
    by_cases hc : s.finalStep < s.nextStep
    · rw [execNextStep_of_lt s hc]; exact h
    · rw [execNextStep_of_le_of_range s (not_lt.mp hc) (by omega) (by omega)]
      simp only
      omega

/-- Whatever is called on a constructed object, in whatever order, `Bounds`
holds of its state. -/
theorem runCalls_bounds {OptionsPtr : Type} (render : OptionsPtr → String) (ms : List Method)
    (s : SimulatorImpl OptionsPtr) (h : Bounds s) : Bounds (runCalls render ms s) := by
  induction ms generalizing s with
  | nil => exact h
  | cons m ms ih => exact ih _ (call_bounds render m s h)

/-! ## The bound check of `execNextStep` -/

/-- C1: `execNextStep` throws exactly when `nextStep > finalStep`; what it throws
is the text `error: next_step_ (<nextStep>) > final_step_ (<finalStep>)` with
the two values of the state it was called in; and it returns normally exactly
when `nextStep <= finalStep`. -/
theorem execNextStep_throws_iff {OptionsPtr : Type} (s : SimulatorImpl OptionsPtr) :
    ((∃ e, (execNextStep s).result = .error e) ↔ s.nextStep > s.finalStep) ∧
    (∀ e, (execNextStep s).result = .error e →
      e = "error: next_step_ (" ++ toString s.nextStep ++ ") > final_step_ ("
            ++ toString s.finalStep ++ ")") ∧
    ((execNextStep s).result = .ok () ↔ s.nextStep ≤ s.finalStep) := by
  by_cases h : s.finalStep < s.nextStep
  · rw [execNextStep_of_lt s h]
    refine ⟨⟨fun _ => h, fun _ => ⟨_, rfl⟩⟩, ?_, ⟨fun hok => ?_, fun hle => ?_⟩⟩
    · intro e he
      simp only [Except.error.injEq] at he
      rw [← he]
      rfl
    · simp at hok
    · exact absurd h (not_lt.mpr hle)
  · rw [execNextStep_of_le s (not_lt.mp h)]
    refine ⟨⟨fun ⟨e, he⟩ => ?_, fun hlt => absurd hlt h⟩, ?_, ⟨fun _ => not_lt.mp h, fun _ => rfl⟩⟩
    · simp at he
    · intro e he
      simp at he

/-- C3: for `0 <= n <= finalStep()` as `init` left it, each of the first `n + 1`
calls of `execNextStep` after `init` returns normally and `nextStep()` is then
`n + 1`; the five calls that the bound 4 allows all return normally, and the
sixth throws: exactly `finalStep + 1 = 5` consecutive calls succeed. -/
theorem execNextSteps_after_init {OptionsPtr : Type} (s : SimulatorImpl OptionsPtr) (n : Nat)
    (b : Int) (hb : (finalStep (init s).pimpl).result = .ok b) (hn : (n : Int) ≤ b) :
    (∀ j, j ≤ n → (execNextStep (execNextSteps j (init s).pimpl)).result = .ok ()) ∧
    (nextStep (execNextSteps (n + 1) (init s).pimpl)).result = .ok ((n : Int) + 1) ∧
    b + 1 = 5 ∧
    (∀ j, j < 5 → (execNextStep (execNextSteps j (init s).pimpl)).result = .ok ()) ∧
    (∃ e, (execNextStep (execNextSteps 5 (init s).pimpl)).result = .error e) := by
  have hb4 : b = 4 := by
    simp only [finalStep, init, Except.ok.injEq] at hb
    exact hb.symm
  subst hb4
  have hn4 : n ≤ 4 := by exact_mod_cast hn
  have hrun : ∀ j : Nat, j ≤ 5 →
      execNextSteps j (init s).pimpl = { (init s).pimpl with nextStep := (j : Int) } := by
    intro j hj
    rw [execNextSteps_of_le j (init s).pimpl (by simp only [init]; omega)
      (init_nextStep_lo s) (init_finalStep_hi s)]
    simp [init]
  have hok : ∀ j : Nat, j < 5 →
      (execNextStep (execNextSteps j (init s).pimpl)).result = .ok () := by
    intro j hj
    rw [hrun j (by omega), execNextStep_of_le _ (by simp only [init]; omega)]
  refine ⟨fun j hj => hok j (by omega), ?_, rfl, hok, ?_⟩
  · rw [hrun (n + 1) (by omega)]
    simp [nextStep]
  · rw [hrun 5 (by omega), execNextStep_of_lt _ (by simp only [init]; decide)]
    exact ⟨_, rfl⟩

/-- After `init` on a fresh object the bound is 4; with `n = 4` all five calls
return normally and `nextStep()` is 5. -/
theorem execNextSteps_after_init_witness :
    (finalStep (init (Simulator "opts")).pimpl).result = .ok 4 ∧ ((4 : Nat) : Int) ≤ 4 ∧
    (∀ j, j ≤ 4 →
      (execNextStep (execNextSteps j (init (Simulator "opts")).pimpl)).result = .ok ()) ∧
    (nextStep (execNextSteps (4 + 1) (init (Simulator "opts")).pimpl)).result
      = .ok (((4 : Nat) : Int) + 1) :=
  have h := execNextSteps_after_init (Simulator "opts") 4 4 rfl (by decide)
  ⟨rfl, by decide, h.1, h.2.1⟩

/-- C4: on a constructed and initialized object the first five calls of
`execNextStep` return normally and `nextStep()` is then 5; the sixth call
throws `error: next_step_ (5) > final_step_ (4)`; and for every `k >= 1` the
`(5 + k)`-th call in a row throws that same text and `nextStep()` is still 5
after it. -/
theorem execNextStep_sixth_call_throws {OptionsPtr : Type} (options : OptionsPtr) :
    (∀ j, j < 5 →
      (execNextStep (execNextSteps j (init (Simulator options)).pimpl)).result = .ok ()) ∧
    (nextStep (execNextSteps 5 (init (Simulator options)).pimpl)).result = .ok 5 ∧
    (execNextStep (execNextSteps 5 (init (Simulator options)).pimpl)).result
      = .error "error: next_step_ (5) > final_step_ (4)" ∧
    (∀ k, 1 ≤ k →
      (execNextStep (execNextSteps (4 + k) (init (Simulator options)).pimpl)).result
        = .error "error: next_step_ (5) > final_step_ (4)" ∧
      (nextStep (execNextSteps (5 + k) (init (Simulator options)).pimpl)).result = .ok 5 ∧
      (finalStep (execNextSteps (5 + k) (init (Simulator options)).pimpl)).result = .ok 4) := by
  have h5 : execNextSteps 5 (init (Simulator options)).pimpl
      = { options := options, nextStep := 5, finalStep := 4 } := by
    rw [execNextSteps_of_le 5 _ (by simp only [init]; decide)
      (init_nextStep_lo _) (init_finalStep_hi _)]
    simp [init, Simulator, SimulatorImpl.SimulatorImpl]
  have hlt : (SimulatorImpl.finalStep ({ options := options, nextStep := 5, finalStep := 4 } :
      SimulatorImpl OptionsPtr)) < 5 := by
    show (4 : Int) < 5
    decide
  have hmore : ∀ k, execNextSteps (5 + k) (init (Simulator options)).pimpl
      = { options := options, nextStep := 5, finalStep := 4 } := by
    intro k
    induction k with
    | zero => exact h5
    | succ k ih =>
      have hstep : ∀ (m : Nat) (t : SimulatorImpl OptionsPtr),
          execNextSteps (m + 1) t = (execNextStep (execNextSteps m t)).pimpl := by
        intro m
        induction m with
        | zero => intro t; rfl
        | succ m ihm => intro t; rw [execNextSteps, ihm, ← execNextSteps]
      rw [← Nat.add_assoc, hstep, ih, execNextStep_of_lt _ hlt]
  refine ⟨fun j hj => ?_, ?_, ?_, fun k hk => ⟨?_, ?_, ?_⟩⟩
  · rw [execNextSteps_of_le j _ (by simp only [init]; omega)
        (init_nextStep_lo _) (init_finalStep_hi _),
      execNextStep_of_le _ (by simp only [init]; omega)]
  · rw [h5]; rfl
  · rw [h5, execNextStep_of_lt _ hlt]; rfl
  · obtain ⟨i, rfl⟩ : ∃ i, k = i + 1 := ⟨k - 1, by omega⟩
    rw [show 4 + (i + 1) = 5 + i by omega, hmore i, execNextStep_of_lt _ hlt]
    rfl
  · rw [hmore k]; rfl
  · rw [hmore k]; rfl

/-! ## `init` and the constructor -/

/-- C5: `init` is a total reset: in every state it returns normally, and after
it `nextStep()` is 0, `finalStep()` is 4 and the options pointer is the one the
object had; a second `init` leaves the state the first one produced. -/
theorem init_resets {OptionsPtr : Type} (s : SimulatorImpl OptionsPtr) :
    (init s).result = .ok () ∧
    (nextStep (init s).pimpl).result = .ok 0 ∧
    (finalStep (init s).pimpl).result = .ok 4 ∧
    (init s).pimpl.options = s.options ∧
    (init s).pimpl = { options := s.options, nextStep := 0, finalStep := 4 } ∧
    (init (init s).pimpl).pimpl = (init s).pimpl :=
  ⟨rfl, rfl, rfl, rfl, rfl, rfl⟩

/-- C6: an object constructed with the options `options` answers -1 to
`nextStep()` and to `finalStep()` and holds `options`. -/
theorem Simulator_fresh {OptionsPtr : Type} (options : OptionsPtr) :
    (nextStep (Simulator options)).result = .ok (-1) ∧
    (finalStep (Simulator options)).result = .ok (-1) ∧
    (Simulator options).options = options :=
  ⟨rfl, rfl, rfl⟩

/-! ## Frame properties -/

/-- C7: called with `nextStep > finalStep`, `execNextStep` throws and the state
after the call is the state before it; and in every state the call either
returns normally, having incremented the `int` counter (so that the counter has
changed) and nothing else, or throws with the state untouched; it never throws
with the counter changed. Where `-2147483648 <= nextStep < 2147483647` the
increment of a returning call is exactly 1. -/
theorem execNextStep_atomic {OptionsPtr : Type} (s : SimulatorImpl OptionsPtr) :
    (s.nextStep > s.finalStep →
      (execNextStep s).result = .error (errorMessage s.nextStep s.finalStep) ∧
      (execNextStep s).pimpl = s) ∧
    (((execNextStep s).result = .ok () ∧
        (execNextStep s).pimpl = { s with nextStep := wrapInt32 (s.nextStep + 1) } ∧
        (execNextStep s).pimpl.nextStep ≠ s.nextStep) ∨
      ((∃ e, (execNextStep s).result = .error e) ∧ (execNextStep s).pimpl = s)) ∧
    ¬ ((∃ e, (execNextStep s).result = .error e) ∧
        (execNextStep s).pimpl.nextStep ≠ s.nextStep) ∧
    ((execNextStep s).result = .ok () → -2147483648 ≤ s.nextStep → s.nextStep < 2147483647 →
      (execNextStep s).pimpl.nextStep = s.nextStep + 1) := by
  by_cases h : s.finalStep < s.nextStep
  · rw [execNextStep_of_lt s h]
    refine ⟨fun _ => ⟨rfl, rfl⟩, Or.inr ⟨⟨_, rfl⟩, rfl⟩, fun hc => hc.2 rfl, fun hok => ?_⟩
    simp at hok
  · refine ⟨fun hc => absurd hc h, Or.inl ?_, ?_, fun _ hlo hhi => ?_⟩
    · rw [execNextStep_of_le s (not_lt.mp h)]
      exact ⟨rfl, rfl, wrapInt32_succ_ne s.nextStep⟩
    · rw [execNextStep_of_le s (not_lt.mp h)]
      rintro ⟨⟨e, he⟩, -⟩
      simp at he
    · rw [execNextStep_of_le_of_range s (not_lt.mp h) hlo hhi]

/-- C9: whatever member functions are called on a constructed object, in
whatever order and whether or not a call throws, the state is uninitialized
(`nextStep = finalStep = -1`), running (`0 <= nextStep <= finalStep`, with
`finalStep >= 0`) or exhausted (`nextStep = finalStep + 1`); and in an
exhausted state each further call of `execNextStep` throws and leaves the state
exhausted. -/
theorem runCalls_state {OptionsPtr : Type} (render : OptionsPtr → String) (ms : List Method)
    (options : OptionsPtr) :
    ((runCalls render ms (Simulator options)).nextStep = -1 ∧
        (runCalls render ms (Simulator options)).finalStep = -1 ∨
      (0 ≤ (runCalls render ms (Simulator options)).nextStep ∧
        (runCalls render ms (Simulator options)).nextStep
          ≤ (runCalls render ms (Simulator options)).finalStep ∧
        0 ≤ (runCalls render ms (Simulator options)).finalStep) ∨
      (runCalls render ms (Simulator options)).nextStep
        = (runCalls render ms (Simulator options)).finalStep + 1) ∧
    ((runCalls render ms (Simulator options)).nextStep
        = (runCalls render ms (Simulator options)).finalStep + 1 →
      ∀ k, (∃ e, (execNextStep
              (execNextSteps k (runCalls render ms (Simulator options)))).result = .error e) ∧
        (execNextStep (execNextSteps k (runCalls render ms (Simulator options)))).pimpl
          = runCalls render ms (Simulator options)) := by
  have hb : Bounds (runCalls render ms (Simulator options)) :=
    runCalls_bounds render ms _ (Or.inl ⟨rfl, rfl⟩)
  generalize runCalls render ms (Simulator options) = t at hb ⊢
  refine ⟨?_, fun hex k => ?_⟩
  · unfold Bounds at hb
    omega
  · have hlt : t.finalStep < t.nextStep := by omega
    rw [execNextSteps_of_lt t hlt k, execNextStep_of_lt t hlt]
    exact ⟨⟨_, rfl⟩, rfl⟩

/-- C10: `nextStep()` returns the field `nextStep` and `finalStep()` the field
`finalStep`; they and `printStatus()` return normally and leave the state,
options pointer included, as it was; only `printStatus()` writes to `cout`. -/
theorem observers_pure {OptionsPtr : Type} (render : OptionsPtr → String)
    (s : SimulatorImpl OptionsPtr) :
    (nextStep s).result = .ok s.nextStep ∧ (nextStep s).pimpl = s ∧
    (finalStep s).result = .ok s.finalStep ∧ (finalStep s).pimpl = s ∧
    (printStatus render s).result = .ok () ∧ (printStatus render s).pimpl = s ∧
    (printStatus render s).cout
      = "Simulator::printStatus(); options: " ++ render s.options ++ "\n" ∧
    (nextStep s).cout = "" ∧ (finalStep s).cout = "" :=
  ⟨rfl, rfl, rfl, rfl, rfl, rfl, rfl, rfl, rfl⟩

/-! ## Before `init`, and the range of the counter -/

/-- C11: on an object that was constructed and never initialized the first call
of `execNextStep` returns normally and leaves `nextStep = 0`, `finalStep = -1`;
the second call throws `error: next_step_ (0) > final_step_ (-1)` and changes
nothing, as does every later one: exactly one call is accepted before `init`. -/
theorem execNextStep_before_init {OptionsPtr : Type} (options : OptionsPtr) :
    (Simulator options).nextStep = -1 ∧ (Simulator options).finalStep = -1 ∧
    (execNextStep (Simulator options)).result = .ok () ∧
    (execNextStep (Simulator options)).pimpl
      = { options := options, nextStep := 0, finalStep := -1 } ∧
    (execNextStep (execNextStep (Simulator options)).pimpl).result
      = .error "error: next_step_ (0) > final_step_ (-1)" ∧
    (execNextStep (execNextStep (Simulator options)).pimpl).pimpl
      = { options := options, nextStep := 0, finalStep := -1 } ∧
    (∀ k, 1 ≤ k →
      (execNextStep (execNextSteps k (Simulator options))).result
        = .error "error: next_step_ (0) > final_step_ (-1)" ∧
      execNextSteps k (Simulator options)
        = { options := options, nextStep := 0, finalStep := -1 }) := by
  have hle : (Simulator options).nextStep ≤ (Simulator options).finalStep := by
    show (-1 : Int) ≤ -1
    decide
  have h1 : execNextStep (Simulator options)
      = { result := .ok (), pimpl := { options := options, nextStep := 0, finalStep := -1 },
          cout := "" } := by
    rw [execNextStep_of_le _ hle]
    rfl
  have hlt : (SimulatorImpl.finalStep ({ options := options, nextStep := 0, finalStep := -1 } :
      SimulatorImpl OptionsPtr)) < 0 := by
    show (-1 : Int) < 0
    decide
  refine ⟨rfl, rfl, ?_, ?_, ?_, ?_, fun k hk => ?_⟩
  · rw [h1]
  · rw [h1]
  · rw [h1, execNextStep_of_lt _ hlt]; rfl
  · rw [h1, execNextStep_of_lt _ hlt]
  · obtain ⟨i, rfl⟩ : ∃ i, k = i + 1 := ⟨k - 1, by omega⟩
    have hrun : execNextSteps (i + 1) (Simulator options)
        = { options := options, nextStep := 0, finalStep := -1 } := by
      rw [execNextSteps, h1]
      exact execNextSteps_of_lt _ hlt i
    rw [hrun, execNextStep_of_lt _ hlt]
    exact ⟨rfl, rfl⟩

/-- C12: whatever member functions are called on a constructed object, in
whatever order, `finalStep` is -1 or 4 and `-1 <= nextStep <= 5`; so
`nextStep + 1` reduced to 32 bits is the mathematical `nextStep + 1`, and the
counter a call of `execNextStep` leaves is an `int`, equal to the 32-bit
increment whenever the call returns normally. -/
theorem execNextStep_no_overflow {OptionsPtr : Type} (render : OptionsPtr → String)
    (ms : List Method) (options : OptionsPtr) :
    ((runCalls render ms (Simulator options)).finalStep = -1 ∨
      (runCalls render ms (Simulator options)).finalStep = 4) ∧
    -1 ≤ (runCalls render ms (Simulator options)).nextStep ∧
    (runCalls render ms (Simulator options)).nextStep ≤ 5 ∧
    wrapInt32 ((runCalls render ms (Simulator options)).nextStep + 1)
      = (runCalls render ms (Simulator options)).nextStep + 1 ∧
    ((execNextStep (runCalls render ms (Simulator options))).result = .ok () →
      (execNextStep (runCalls render ms (Simulator options))).pimpl.nextStep
        = wrapInt32 ((runCalls render ms (Simulator options)).nextStep + 1)) ∧
    -2147483648 ≤ (execNextStep (runCalls render ms (Simulator options))).pimpl.nextStep ∧
    (execNextStep (runCalls render ms (Simulator options))).pimpl.nextStep ≤ 2147483647 := by
  have hb : Bounds (runCalls render ms (Simulator options)) :=
    runCalls_bounds render ms _ (Or.inl ⟨rfl, rfl⟩)
  have hb1 : Bounds (execNextStep (runCalls render ms (Simulator options))).pimpl :=
    call_bounds render .execNextStep _ hb
  have hw := wrapInt32_succ_of_bounds _ hb
  generalize runCalls render ms (Simulator options) = t at hb hb1 hw ⊢
  refine ⟨?_, ?_, ?_, hw, fun hok => ?_, ?_, ?_⟩
  · unfold Bounds at hb; omega
  · unfold Bounds at hb; omega
  · unfold Bounds at hb; omega
  · by_cases h : t.finalStep < t.nextStep
    · rw [execNextStep_of_lt t h] at hok
      simp at hok
    · rw [execNextStep_of_le t (not_lt.mp h)]
  · unfold Bounds at hb1; omega
  · unfold Bounds at hb1; omega

end Simulator
